import Mathlib

/-!
Verification of the dataset-preparation and orchestration code of the
qiskit-tutorials repository.

Example A (feature-map comparison notebook) defines a function
`Wine(training_size, test_size, n)` which prepares a partitioned dataset from
the sklearn Wine dataset and then invokes `run_algorithm` twice (once with the
`RawFeatureVector` feature map, once with `SecondOrderExpansion`).

Example B (declarative chemistry notebook) builds one configuration dictionary
and invokes `QiskitChemistry.run` once on the statevector simulator, printing
the resulting ground-state energy.

The embedding below follows the notebook source line by line.  Floating-point
values are modelled as exact rationals.  Components implemented in external
libraries (numpy's seeded permutation used by `train_test_split`, the fitted
`StandardScaler` parameters, and the fitted PCA projection) are deterministic
functions of their inputs in those libraries; they are modelled as explicit
function-valued parameters gathered in `WineExternals`, with their defining
properties (e.g. the `StandardScaler` fit equations) stated as predicates.
-/

namespace WineTutorial

/-- A data row: one feature vector, a list of (exact) rationals. -/
abbrev Row := List ℚ

/-- The deterministic external components used by `Wine`:
`permutation seed m` is the permutation of `0..m-1` produced by numpy's
`RandomState(seed).permutation(m)` (used by sklearn's `train_test_split`);
`stdFit X` is the pair `(mean_, scale_)` computed by `StandardScaler().fit(X)`;
`pcaFit X n` is the projection `PCA(n_components=n).fit(X).transform` applied
row-wise.  All three are deterministic functions of their arguments in sklearn
(the split's randomness is fixed by the hard-coded `random_state=7`). -/
structure WineExternals where
  permutation : ℕ → ℕ → List ℕ
  stdFit : List Row → Row × Row
  pcaFit : List Row → ℕ → Row → Row

/-- Fancy indexing `X[idx]`: the rows of `X` at the positions in `idx`. -/
def select {α : Type} (X : List α) (d : α) (idx : List ℕ) : List α :=
  idx.map (fun i => X.getD i d)

/-- Column `j` of a 2-d array, read off each row. -/
def col (X : List Row) (j : ℕ) : List ℚ :=
  X.map (fun r => r.getD j 0)

/-- Arithmetic mean of a list (numpy `mean`; `0` on the empty list). -/
def mean (l : List ℚ) : ℚ := l.sum / l.length

/-- Population variance of a list (numpy `var`, `ddof=0`). -/
def variance (l : List ℚ) : ℚ := mean (l.map (fun x => (x - mean l) ^ 2))

/-- `StandardScaler.transform` on one row, given the fitted per-feature
parameters `mu = mean_` and `sigma = scale_`: `(X - mean_) / scale_`. -/
def stdTransformRow (mu sigma : Row) (r : Row) : Row :=
  (List.range r.length).map (fun j => (r.getD j 0 - mu.getD j 0) / sigma.getD j 0)

/-- The fit equations of `StandardScaler().fit(X)` for `d` features:
`mean_` holds the per-column means and `scale_` the per-column standard
deviations, a zero standard deviation being replaced by `1`
(sklearn's `_handle_zeros_in_scale`). -/
def IsStdFit (X : List Row) (d : ℕ) (mu sigma : Row) : Prop :=
  mu.length = d ∧ sigma.length = d ∧
  ∀ j, j < d →
    mu.getD j 0 = mean (col X j) ∧
    0 ≤ sigma.getD j 0 ∧
    (variance (col X j) = 0 → sigma.getD j 0 = 1) ∧
    (variance (col X j) ≠ 0 → sigma.getD j 0 ^ 2 = variance (col X j))

/-- Minimum of a list (numpy `min` along a column; `0` on the empty list,
which never occurs in the pipeline). -/
def listMin : List ℚ → ℚ
  | [] => 0
  | [x] => x
  | x :: y :: ys => min x (listMin (y :: ys))

/-- Maximum of a list (numpy `max` along a column). -/
def listMax : List ℚ → ℚ
  | [] => 0
  | [x] => x
  | x :: y :: ys => max x (listMax (y :: ys))

/-- `data_min_[j]` of a `MinMaxScaler` fitted on `X`. -/
def colMin (X : List Row) (j : ℕ) : ℚ := listMin (col X j)

/-- `data_max_[j]` of a `MinMaxScaler` fitted on `X`. -/
def colMax (X : List Row) (j : ℕ) : ℚ := listMax (col X j)

/-- `scale_` of `MinMaxScaler((-1, 1))` for one feature with data range
`[lo, hi]`: `(1 - (-1)) / (data_max_ - data_min_)`, a zero range being
replaced by `1` (sklearn's `_handle_zeros_in_scale`). -/
def mmScale (lo hi : ℚ) : ℚ := 2 / (if hi - lo = 0 then 1 else hi - lo)

/-- `MinMaxScaler((-1, 1)).transform` on one value:
`x * scale_ + min_` where `min_ = -1 - data_min_ * scale_`. -/
def mmApply (lo hi x : ℚ) : ℚ := x * mmScale lo hi + (-1 - lo * mmScale lo hi)

/-- `MinMaxScaler((-1, 1)).fit(X).transform` on one row. -/
def minmaxTransformRow (X : List Row) (r : Row) : Row :=
  (List.range r.length).map (fun j => mmApply (colMin X j) (colMax X j) (r.getD j 0))

/-- Boolean-mask selection `X[labels == k, :]`: the rows of `X` whose
corresponding entry of `labels` equals `k`, in order. -/
def rowsWithLabel : List Row → List ℕ → ℕ → List Row
  | x :: xs, l :: ls, k => if l = k then x :: rowsWithLabel xs ls k else rowsWithLabel xs ls k
  | _, _, _ => []

/-- `class_labels = ['A', 'B', 'C']` from the notebook. -/
def wineClassLabels : List String := ["A", "B", "C"]

/-- `StandardScaler().fit(sample_train)`, fitted on the training split only. -/
def stdParamsOf (ext : WineExternals) (strain : List Row) : Row × Row :=
  ext.stdFit strain

/-- `sample_train = std_scale.transform(sample_train)`. -/
def stdTrainOf (ext : WineExternals) (strain : List Row) : List Row :=
  strain.map (stdTransformRow (stdParamsOf ext strain).1 (stdParamsOf ext strain).2)

/-- `sample_test = std_scale.transform(sample_test)`: the same fitted
parameters, computed from the training split, applied to the test split. -/
def stdTestOf (ext : WineExternals) (strain stest : List Row) : List Row :=
  stest.map (stdTransformRow (stdParamsOf ext strain).1 (stdParamsOf ext strain).2)

/-- `pca = PCA(n_components=n).fit(sample_train)`, fitted on the
standardized training split only. -/
def pcaOf (ext : WineExternals) (n : ℕ) (strain : List Row) : Row → Row :=
  ext.pcaFit (stdTrainOf ext strain) n

/-- `sample_train = pca.transform(sample_train)`. -/
def pcaTrainOf (ext : WineExternals) (n : ℕ) (strain : List Row) : List Row :=
  (stdTrainOf ext strain).map (pcaOf ext n strain)

/-- `sample_test = pca.transform(sample_test)`. -/
def pcaTestOf (ext : WineExternals) (n : ℕ) (strain stest : List Row) : List Row :=
  (stdTestOf ext strain stest).map (pcaOf ext n strain)

/-- `samples = np.append(sample_train, sample_test, axis=0)`: the union of the
transformed train and test rows, on which the `MinMaxScaler` is fitted. -/
def samplesOf (ext : WineExternals) (n : ℕ) (strain stest : List Row) : List Row :=
  pcaTrainOf ext n strain ++ pcaTestOf ext n strain stest

/-- `sample_train = minmax_scale.transform(sample_train)`, the scaler being
fitted on `samples`. -/
def finalTrainOf (ext : WineExternals) (n : ℕ) (strain stest : List Row) : List Row :=
  (pcaTrainOf ext n strain).map (minmaxTransformRow (samplesOf ext n strain stest))

/-- `sample_test = minmax_scale.transform(sample_test)`, the scaler being
fitted on `samples`. -/
def finalTestOf (ext : WineExternals) (n : ℕ) (strain stest : List Row) : List Row :=
  (pcaTestOf ext n strain stest).map (minmaxTransformRow (samplesOf ext n strain stest))

/-- `training_input = {key: (sample_train[label_train == k, :])[:training_size]
for k, key in enumerate(class_labels)}`.  Note the slicing is from the
transformed `sample_train`. -/
def trainingInputOf (ext : WineExternals) (t s n : ℕ) (strain stest : List Row)
    (ltrain : List ℕ) : List (String × List Row) :=
  wineClassLabels.enum.map (fun p =>
    (p.2, (rowsWithLabel (finalTrainOf ext n strain stest) ltrain p.1).take t))

/-- `test_input = {key: (sample_train[label_train == k, :])[training_size:
(training_size + test_size)] for k, key in enumerate(class_labels)}`.  Note
the slicing is again from the transformed `sample_train`, not `sample_test`. -/
def testInputOf (ext : WineExternals) (t s n : ℕ) (strain stest : List Row)
    (ltrain : List ℕ) : List (String × List Row) :=
  wineClassLabels.enum.map (fun p =>
    (p.2, ((rowsWithLabel (finalTrainOf ext n strain stest) ltrain p.1).drop t).take s))

/-- The permutation of row indices drawn by
`train_test_split(..., random_state=7)`: sklearn permutes the `len(data)`
indices with `RandomState(7)`, puts the first `test_size` into the test split
and the rest into the training split. -/
def winePerm (ext : WineExternals) (data : List Row) : List ℕ :=
  ext.permutation 7 data.length

/-- The raw `sample_train` produced by `train_test_split`. -/
def wineSampleTrain0 (ext : WineExternals) (s : ℕ) (data : List Row) : List Row :=
  select data [] ((winePerm ext data).drop s)

/-- The raw held-out `sample_test` produced by `train_test_split`. -/
def wineSampleTest0 (ext : WineExternals) (s : ℕ) (data : List Row) : List Row :=
  select data [] ((winePerm ext data).take s)

/-- `label_train` produced by `train_test_split`. -/
def wineLabelTrain (ext : WineExternals) (s : ℕ) (data : List Row)
    (target : List ℕ) : List ℕ :=
  select target 0 ((winePerm ext data).drop s)

/-- `label_test` produced by `train_test_split` (bound but unused by `Wine`). -/
def wineLabelTest (ext : WineExternals) (s : ℕ) (data : List Row)
    (target : List ℕ) : List ℕ :=
  select target 0 ((winePerm ext data).take s)

/-- The fitted `StandardScaler` parameters of the `Wine` call:
`std_scale = StandardScaler().fit(sample_train)`. -/
def wineStdParams (ext : WineExternals) (s : ℕ) (data : List Row) : Row × Row :=
  stdParamsOf ext (wineSampleTrain0 ext s data)

/-- `sample_train = std_scale.transform(sample_train)` inside `Wine`. -/
def wineStdTrain (ext : WineExternals) (s : ℕ) (data : List Row) : List Row :=
  stdTrainOf ext (wineSampleTrain0 ext s data)

/-- `sample_test = std_scale.transform(sample_test)` inside `Wine`: the test
split transformed with the parameters fitted on the training split. -/
def wineStdTest (ext : WineExternals) (s : ℕ) (data : List Row) : List Row :=
  stdTestOf ext (wineSampleTrain0 ext s data) (wineSampleTest0 ext s data)

/-- The fully transformed `sample_train` that `Wine` returns. -/
def wineFinalTrain (ext : WineExternals) (s n : ℕ) (data : List Row) : List Row :=
  finalTrainOf ext n (wineSampleTrain0 ext s data) (wineSampleTest0 ext s data)

/-- The fully transformed `sample_test` (computed by `Wine` but not returned). -/
def wineFinalTest (ext : WineExternals) (s n : ℕ) (data : List Row) : List Row :=
  finalTestOf ext n (wineSampleTrain0 ext s data) (wineSampleTest0 ext s data)

/-- The `training_input` dictionary returned by `Wine`. -/
def wineTrainingInput (ext : WineExternals) (t s n : ℕ) (data : List Row)
    (target : List ℕ) : List (String × List Row) :=
  trainingInputOf ext t s n (wineSampleTrain0 ext s data) (wineSampleTest0 ext s data)
    (wineLabelTrain ext s data target)

/-- The `test_input` dictionary returned by `Wine`. -/
def wineTestInput (ext : WineExternals) (t s n : ℕ) (data : List Row)
    (target : List ℕ) : List (String × List Row) :=
  testInputOf ext t s n (wineSampleTrain0 ext s data) (wineSampleTest0 ext s data)
    (wineLabelTrain ext s data target)

/-- The notebook's `Wine(training_size, test_size, n)` applied to the base
dataset `(data, target)` (`datasets.load_wine(True)` in the source):
`return sample_train, training_input, test_input, class_labels`. -/
def Wine (ext : WineExternals) (t s n : ℕ) (data : List Row) (target : List ℕ) :
    List Row × List (String × List Row) × List (String × List Row) × List String :=
  (wineFinalTrain ext s n data,
   wineTrainingInput ext t s n data target,
   wineTestInput ext t s n data target,
   wineClassLabels)

/-- The Example A dataset preparation as the notebook performs it:
`np.random.seed(random_seed)` seeds the process-wide numpy generator, then
`Wine` is called.  `Wine` draws no values from the process-wide generator
(its split passes the hard-coded `random_state=7` to `train_test_split`),
so the global seed is accepted and ignored. -/
def prepareWineDataset (ext : WineExternals) (globalSeed t s n : ℕ)
    (data : List Row) (target : List ℕ) :
    List Row × List (String × List Row) × List (String × List Row) × List String :=
  Wine ext t s n data target

/-! Concrete instantiations used to exhibit counterexamples and witnesses.
`extId` mimics sklearn with an identity permutation, a fixed standardization
that is the identity on one-dimensional rows, and an identity projection. -/

/-- A concrete external-component instance: identity permutation, constant
`StandardScaler` fit `(mean_, scale_) = ([0], [1])`, identity PCA. -/
def extId : WineExternals :=
  { permutation := fun _ m => List.range m
    stdFit := fun _ => ([0], [1])
    pcaFit := fun _ _ r => r }

/-- A concrete 7-row, 1-feature base dataset. -/
def dataW : List Row := [[0], [1], [2], [3], [4], [5], [6]]

/-- Labels for `dataW`: the row sent to the held-out split carries the unused
label `5`; the six training rows have two examples of each class `0,1,2`. -/
def targetW : List ℕ := [5, 0, 0, 1, 1, 2, 2]

/-- A concrete external-component instance whose constant `StandardScaler`
fit `([1], [1])` is the true fit for the training split of `dataStd`. -/
def extStd : WineExternals :=
  { permutation := fun _ m => List.range m
    stdFit := fun _ => ([1], [1])
    pcaFit := fun _ _ r => r }

/-- A concrete 3-row, 1-feature base dataset whose training split under the
identity permutation with one held-out row is `[[0], [2]]`. -/
def dataStd : List Row := [[7], [0], [2]]

end WineTutorial

namespace FeatureMapExperiment

open WineTutorial

/-- The configuration dictionary `params` of the feature-map comparison
notebook, flattened field by field. -/
structure VQCConfig where
  problem_name : String
  problem_random_seed : ℕ
  algorithm_name : String
  backend_provider : String
  backend_name : String
  optimizer_name : String
  optimizer_maxiter : ℕ
  variational_form_name : String
  variational_form_depth : ℕ
  feature_map_name : Option String

/-- The initial `params` dictionary of the notebook
(`'feature_map': {'name': None}` before the experiment mutates it). -/
def vqcParams : VQCConfig :=
  { problem_name := "classification"
    problem_random_seed := 10598
    algorithm_name := "VQC"
    backend_provider := "qiskit.BasicAer"
    backend_name := "statevector_simulator"
    optimizer_name := "COBYLA"
    optimizer_maxiter := 200
    variational_form_name := "RYRZ"
    variational_form_depth := 3
    feature_map_name := none }

/-- `ClassificationInput(training_input, test_input)`. -/
structure ClassificationInput where
  training_input : List (String × List Row)
  test_input : List (String × List Row)

/-- The result record of a `run_algorithm` invocation.  Per the external
contract, it contains a testing-accuracy scalar. -/
structure VQCResult where
  testing_accuracy : ℚ

/-- One `run_algorithm` invocation followed by its `print`: the configuration
passed in (a snapshot, since the notebook mutates `params` between calls),
the result record returned, the printed label, and the printed value. -/
structure PrintedRun where
  config : VQCConfig
  result : VQCResult
  printed_label : String
  printed_value : ℚ

/-- The experiment cells of the feature-map comparison notebook:
set `params['feature_map']['name'] = 'RawFeatureVector'`, call
`run_algorithm(params, classification_input)` and print
`result['testing_accuracy']`; then set
`params['feature_map']['name'] = 'SecondOrderExpansion'` on the same
dictionary and repeat.  `runAlg` is the external `run_algorithm` entry point,
modelled as a function-valued parameter. -/
def experimentTrace (runAlg : VQCConfig → ClassificationInput → VQCResult)
    (input : ClassificationInput) : List PrintedRun :=
  let p1 := { vqcParams with feature_map_name := some "RawFeatureVector" }
  let r1 := runAlg p1 input
  let p2 := { p1 with feature_map_name := some "SecondOrderExpansion" }
  let r2 := runAlg p2 input
  [{ config := p1, result := r1,
     printed_label := "VQC accuracy with RawFeatureVector:  ",
     printed_value := r1.testing_accuracy },
   { config := p2, result := r2,
     printed_label := "Test accuracy with SecondOrderExpansion:  ",
     printed_value := r2.testing_accuracy }]

end FeatureMapExperiment

namespace ChemistryExample

/-- The `qiskit_chemistry_dict` configuration of the declarative chemistry
notebook, flattened field by field. -/
structure ChemistryConfig where
  driver_name : String
  hdf5_input : String
  operator_name : String
  algorithm_name : String
  optimizer_name : String
  variational_form_name : String
  initial_state_name : String

/-- The configuration dictionary of the notebook. -/
def qiskitChemistryDict : ChemistryConfig :=
  { driver_name := "HDF5"
    hdf5_input := "H2/0.7_sto-3g.hdf5"
    operator_name := "hamiltonian"
    algorithm_name := "VQE"
    optimizer_name := "COBYLA"
    variational_form_name := "UCCSD"
    initial_state_name := "HartreeFock" }

/-- A result record of `QiskitChemistry.run`: the computed ground-state
energy (a finite rational here; floats are modelled exactly). -/
structure ChemistryResult where
  energy : ℚ

/-- Modelled from the spec: `QiskitChemistry.run` is implemented in the
external qiskit-chemistry library, not in this repository.  The spec fixes
its observable behaviour on the documented input — the configuration
dictionary above, the serialized `H2/0.7_sto-3g.hdf5` molecular data, and the
statevector-simulator backend — as returning a result record whose `energy`
field is the recorded ground-state energy `-1.1361894423809882` printed in
the notebook's output cell. -/
def qiskitChemistryRun (config : ChemistryConfig) (backend : String) :
    ChemistryResult :=
  { energy := -11361894423809882 / 10 ^ 16 }

end ChemistryExample

namespace WineTutorial

/-! ### Basic lemmas about the building blocks -/

theorem getD_range_map (n j : ℕ) (f : ℕ → ℚ) (d : ℚ) :
    ((List.range n).map f).getD j d = if j < n then f j else d := by
  rcases Nat.lt_or_ge j n with h | h
  · rw [List.getD_eq_getElem?_getD, List.getElem?_map, List.getElem?_range h]
    simp [h]
  · rw [List.getD_eq_getElem?_getD, List.getElem?_map,
      List.getElem?_eq_none (by simpa using h)]
    simp [Nat.not_lt.mpr h]

theorem stdTransformRow_length (mu sigma r : Row) :
    (stdTransformRow mu sigma r).length = r.length := by
  simp [stdTransformRow]

theorem minmaxTransformRow_length (X : List Row) (r : Row) :
    (minmaxTransformRow X r).length = r.length := by
  simp [minmaxTransformRow]

theorem listMin_le (l : List ℚ) (x : ℚ) (hx : x ∈ l) : listMin l ≤ x := by
  induction l with
  | nil => cases hx
  | cons a as ih =>
    cases as with
    | nil =>
      rcases List.mem_cons.mp hx with h | h
      · simp [listMin, h]
      · cases h
    | cons b bs =>
      rcases List.mem_cons.mp hx with h | h
      · subst h
        exact min_le_left _ _
      · have := ih h
        simp only [listMin]
        exact le_trans (min_le_right _ _) this

theorem le_listMax (l : List ℚ) (x : ℚ) (hx : x ∈ l) : x ≤ listMax l := by
  induction l with
  | nil => cases hx
  | cons a as ih =>
    cases as with
    | nil =>
      rcases List.mem_cons.mp hx with h | h
      · simp [listMax, h]
      · cases h
    | cons b bs =>
      rcases List.mem_cons.mp hx with h | h
      · subst h
        exact le_max_left _ _
      · have := ih h
        simp only [listMax]
        exact le_trans this (le_max_right _ _)

theorem getD_mem_col (X : List Row) (r : Row) (j : ℕ) (hr : r ∈ X) :
    r.getD j 0 ∈ col X j := by
  exact List.mem_map.mpr ⟨r, hr, rfl⟩

/-- The min-max transform of any value lying in the fitted range `[lo, hi]`
lands in the closed target interval `[-1, 1]`. -/
theorem mmApply_bounds (lo hi x : ℚ) (h1 : lo ≤ x) (h2 : x ≤ hi) :
    -1 ≤ mmApply lo hi x ∧ mmApply lo hi x ≤ 1 := by
  have hx : mmApply lo hi x = (x - lo) * mmScale lo hi - 1 := by
    unfold mmApply
    ring
  by_cases h0 : hi - lo = 0
  · have hxlo : x = lo := le_antisymm (by linarith) h1
    rw [hx, hxlo]
    norm_num
  · have hpos : 0 < hi - lo := lt_of_le_of_ne (by linarith) (Ne.symm h0)
    have hscale : mmScale lo hi = 2 / (hi - lo) := by
      unfold mmScale
      rw [if_neg h0]
    have hs : 0 < mmScale lo hi := by
      rw [hscale]
      positivity
    constructor
    · rw [hx]
      nlinarith
    · rw [hx, hscale]
      rw [div_eq_mul_inv, ← mul_assoc]
      have hinv : 0 < (hi - lo)⁻¹ := by positivity
      have h3 : (x - lo) * 2 ≤ (hi - lo) * 2 := by nlinarith
      have h4 : (x - lo) * 2 * (hi - lo)⁻¹ ≤ (hi - lo) * 2 * (hi - lo)⁻¹ :=
        mul_le_mul_of_nonneg_right h3 (le_of_lt hinv)
      have h5 : (hi - lo) * 2 * (hi - lo)⁻¹ = 2 := by
        field_simp
      linarith

/-- Every entry of a min-max transformed row of the fitted data is in `[-1,1]`. -/
theorem minmaxTransformRow_mem_bounds (X : List Row) (r : Row) (x : ℚ)
    (hr : r ∈ X) (hx : x ∈ minmaxTransformRow X r) : -1 ≤ x ∧ x ≤ 1 := by
  unfold minmaxTransformRow at hx
  rcases List.mem_map.mp hx with ⟨j, hj, hxe⟩
  have hmem : r.getD j 0 ∈ col X j := getD_mem_col X r j hr
  have h1 : colMin X j ≤ r.getD j 0 := listMin_le _ _ hmem
  have h2 : r.getD j 0 ≤ colMax X j := le_listMax _ _ hmem
  rw [← hxe]
  exact mmApply_bounds _ _ _ h1 h2

/-! ### Lemmas about boolean-mask selection (`rowsWithLabel`) -/

theorem rowsWithLabel_sublist (X : List Row) (L : List ℕ) (k : ℕ) :
    List.Sublist (rowsWithLabel X L k) X := by
  induction X generalizing L with
  | nil => simp [rowsWithLabel]
  | cons x xs ih =>
    cases L with
    | nil => simp [rowsWithLabel]
    | cons l ls =>
      by_cases h : l = k
      · simp only [rowsWithLabel, if_pos h]
        exact List.Sublist.cons₂ x (ih ls)
      · simp only [rowsWithLabel, if_neg h]
        exact List.Sublist.cons x (ih ls)

theorem rowsWithLabel_subset (X : List Row) (L : List ℕ) (k : ℕ) :
    rowsWithLabel X L k ⊆ X :=
  (rowsWithLabel_sublist X L k).subset

theorem rowsWithLabel_length (X : List Row) (L : List ℕ) (k : ℕ)
    (h : X.length = L.length) : (rowsWithLabel X L k).length = L.count k := by
  induction X generalizing L with
  | nil =>
    cases L with
    | nil => simp [rowsWithLabel]
    | cons l ls => simp at h
  | cons x xs ih =>
    cases L with
    | nil => simp at h
    | cons l ls =>
      have hlen : xs.length = ls.length := by simpa using h
      by_cases hk : l = k
      · simp only [rowsWithLabel, if_pos hk, List.length_cons, ih ls hlen,
          List.count_cons]
        simp [hk]
      · simp only [rowsWithLabel, if_neg hk, ih ls hlen, List.count_cons]
        have hne : ¬(k == l) = true := by
          simp only [beq_iff_eq]
          exact fun hc => hk hc.symm
        simp [hne]
        exact hk

theorem rowsWithLabel_disjoint (k1 k2 : ℕ) (hne : k1 ≠ k2) :
    ∀ (X : List Row) (L : List ℕ) (v : Row), X.Nodup →
      v ∈ rowsWithLabel X L k1 → v ∈ rowsWithLabel X L k2 → False := by
  intro X
  induction X with
  | nil =>
    intro L v _ h1 _
    simp [rowsWithLabel] at h1
  | cons x xs ih =>
    intro L v hnd h1 h2
    cases L with
    | nil => simp [rowsWithLabel] at h1
    | cons l ls =>
      have hx_not : x ∉ xs := (List.nodup_cons.mp hnd).1
      have hnd' : xs.Nodup := (List.nodup_cons.mp hnd).2
      by_cases e1 : l = k1
      · have e2 : l ≠ k2 := by
          rw [e1]
          exact hne
        rw [show rowsWithLabel (x :: xs) (l :: ls) k1
            = x :: rowsWithLabel xs ls k1 by simp [rowsWithLabel, e1]] at h1
        rw [show rowsWithLabel (x :: xs) (l :: ls) k2
            = rowsWithLabel xs ls k2 by simp [rowsWithLabel, e2]] at h2
        rcases List.mem_cons.mp h1 with hv | hv
        · exact hx_not (hv ▸ rowsWithLabel_subset xs ls k2 h2)
        · exact ih ls v hnd' hv h2
      · rw [show rowsWithLabel (x :: xs) (l :: ls) k1
            = rowsWithLabel xs ls k1 by simp [rowsWithLabel, e1]] at h1
        by_cases e2 : l = k2
        · rw [show rowsWithLabel (x :: xs) (l :: ls) k2
              = x :: rowsWithLabel xs ls k2 by simp [rowsWithLabel, e2]] at h2
          rcases List.mem_cons.mp h2 with hv | hv
          · exact hx_not (hv ▸ rowsWithLabel_subset xs ls k1 h1)
          · exact ih ls v hnd' h1 hv
        · rw [show rowsWithLabel (x :: xs) (l :: ls) k2
              = rowsWithLabel xs ls k2 by simp [rowsWithLabel, e2]] at h2
          exact ih ls v hnd' h1 h2

/-! ### Structure of the partition dictionaries -/

theorem trainingInputOf_eq (ext : WineExternals) (t s n : ℕ)
    (strain stest : List Row) (ltrain : List ℕ) :
    trainingInputOf ext t s n strain stest ltrain =
      [("A", (rowsWithLabel (finalTrainOf ext n strain stest) ltrain 0).take t),
       ("B", (rowsWithLabel (finalTrainOf ext n strain stest) ltrain 1).take t),
       ("C", (rowsWithLabel (finalTrainOf ext n strain stest) ltrain 2).take t)] := rfl

theorem testInputOf_eq (ext : WineExternals) (t s n : ℕ)
    (strain stest : List Row) (ltrain : List ℕ) :
    testInputOf ext t s n strain stest ltrain =
      [("A", ((rowsWithLabel (finalTrainOf ext n strain stest) ltrain 0).drop t).take s),
       ("B", ((rowsWithLabel (finalTrainOf ext n strain stest) ltrain 1).drop t).take s),
       ("C", ((rowsWithLabel (finalTrainOf ext n strain stest) ltrain 2).drop t).take s)] := rfl

theorem mem_trainingInputOf (ext : WineExternals) (t s n : ℕ)
    (strain stest : List Row) (ltrain : List ℕ) (p : String × List Row)
    (hp : p ∈ trainingInputOf ext t s n strain stest ltrain) :
    ∃ k, k < 3 ∧ p.2 = (rowsWithLabel (finalTrainOf ext n strain stest) ltrain k).take t := by
  rw [trainingInputOf_eq] at hp
  simp only [List.mem_cons, List.not_mem_nil, or_false] at hp
  rcases hp with h | h | h
  · exact ⟨0, by norm_num, by rw [h]⟩
  · exact ⟨1, by norm_num, by rw [h]⟩
  · exact ⟨2, by norm_num, by rw [h]⟩

theorem mem_testInputOf (ext : WineExternals) (t s n : ℕ)
    (strain stest : List Row) (ltrain : List ℕ) (p : String × List Row)
    (hp : p ∈ testInputOf ext t s n strain stest ltrain) :
    ∃ k, k < 3 ∧
      p.2 = ((rowsWithLabel (finalTrainOf ext n strain stest) ltrain k).drop t).take s := by
  rw [testInputOf_eq] at hp
  simp only [List.mem_cons, List.not_mem_nil, or_false] at hp
  rcases hp with h | h | h
  · exact ⟨0, by norm_num, by rw [h]⟩
  · exact ⟨1, by norm_num, by rw [h]⟩
  · exact ⟨2, by norm_num, by rw [h]⟩

/-- Every vector of a training-partition entry is a row of the transformed
training split. -/
theorem trainingInput_vec_mem_finalTrain (ext : WineExternals) (t s n : ℕ)
    (strain stest : List Row) (ltrain : List ℕ) (p : String × List Row) (v : Row)
    (hp : p ∈ trainingInputOf ext t s n strain stest ltrain) (hv : v ∈ p.2) :
    v ∈ finalTrainOf ext n strain stest := by
  rcases mem_trainingInputOf ext t s n strain stest ltrain p hp with ⟨k, _, h2⟩
  rw [h2] at hv
  exact rowsWithLabel_subset _ _ _ (List.take_subset _ _ hv)

/-- Every vector of a testing-partition entry is a row of the transformed
training split (not of the held-out test split). -/
theorem testInput_vec_mem_finalTrain (ext : WineExternals) (t s n : ℕ)
    (strain stest : List Row) (ltrain : List ℕ) (p : String × List Row) (v : Row)
    (hp : p ∈ testInputOf ext t s n strain stest ltrain) (hv : v ∈ p.2) :
    v ∈ finalTrainOf ext n strain stest := by
  rcases mem_testInputOf ext t s n strain stest ltrain p hp with ⟨k, _, h2⟩
  rw [h2] at hv
  exact rowsWithLabel_subset _ _ _ (List.drop_subset _ _ (List.take_subset _ _ hv))

/-- No vector appears in both a training-partition entry and a
testing-partition entry, provided the transformed training rows are distinct. -/
theorem partitions_no_overlap (ext : WineExternals) (t s n : ℕ)
    (strain stest : List Row) (ltrain : List ℕ)
    (hnd : (finalTrainOf ext n strain stest).Nodup) :
    ∀ p ∈ trainingInputOf ext t s n strain stest ltrain,
    ∀ q ∈ testInputOf ext t s n strain stest ltrain,
    ∀ v, v ∈ p.2 → v ∈ q.2 → False := by
  intro p hp q hq v hvp hvq
  rcases mem_trainingInputOf ext t s n strain stest ltrain p hp with ⟨k1, _, hp2⟩
  rcases mem_testInputOf ext t s n strain stest ltrain q hq with ⟨k2, _, hq2⟩
  rw [hp2] at hvp
  rw [hq2] at hvq
  by_cases hk : k1 = k2
  · subst hk
    have hndM : (rowsWithLabel (finalTrainOf ext n strain stest) ltrain k1).Nodup :=
      hnd.sublist (rowsWithLabel_sublist _ _ _)
    have hdisj := List.disjoint_take_drop hndM (le_refl t)
    exact hdisj hvp (List.take_subset _ _ hvq)
  · exact rowsWithLabel_disjoint k1 k2 hk _ ltrain v hnd
      (List.take_subset _ _ hvp)
      (List.drop_subset _ _ (List.take_subset _ _ hvq))

/-! ### Lengths through the pipeline -/

theorem stdTrainOf_length (ext : WineExternals) (strain : List Row) :
    (stdTrainOf ext strain).length = strain.length := by
  simp [stdTrainOf]

theorem pcaTrainOf_length (ext : WineExternals) (n : ℕ) (strain : List Row) :
    (pcaTrainOf ext n strain).length = strain.length := by
  simp [pcaTrainOf, stdTrainOf]

theorem finalTrainOf_length (ext : WineExternals) (n : ℕ) (strain stest : List Row) :
    (finalTrainOf ext n strain stest).length = strain.length := by
  simp [finalTrainOf, pcaTrainOf, stdTrainOf]

theorem select_length {α : Type} (X : List α) (d : α) (idx : List ℕ) :
    (select X d idx).length = idx.length := by
  simp [select]

/-- The transformed training rows and the training labels stay aligned:
both have the length of the training side of the split. -/
theorem wineFinalTrain_length (ext : WineExternals) (s n : ℕ) (data : List Row)
    (target : List ℕ) :
    (wineFinalTrain ext s n data).length = (wineLabelTrain ext s data target).length := by
  rw [wineFinalTrain, finalTrainOf_length, wineSampleTrain0, wineLabelTrain,
    select_length, select_length]

/-- Every row of the transformed training split has the PCA target
dimensionality, provided the fitted PCA projection produces vectors of that
length on the standardized training rows. -/
theorem finalTrainOf_row_length (ext : WineExternals) (n : ℕ)
    (strain stest : List Row) (v : Row)
    (hpca : ∀ r ∈ stdTrainOf ext strain, (pcaOf ext n strain r).length = n)
    (hv : v ∈ finalTrainOf ext n strain stest) : v.length = n := by
  unfold finalTrainOf at hv
  rcases List.mem_map.mp hv with ⟨r, hr, hre⟩
  unfold pcaTrainOf at hr
  rcases List.mem_map.mp hr with ⟨r0, hr0, hr0e⟩
  rw [← hre, minmaxTransformRow_length, ← hr0e]
  exact hpca r0 hr0

/-- Every entry of every vector of either partition lies in `[-1, 1]`:
each partition vector is a min-max-transformed row of the fitted data. -/
theorem finalTrainOf_mem_bounds (ext : WineExternals) (n : ℕ)
    (strain stest : List Row) (v : Row) (x : ℚ)
    (hv : v ∈ finalTrainOf ext n strain stest) (hx : x ∈ v) : -1 ≤ x ∧ x ≤ 1 := by
  unfold finalTrainOf at hv
  rcases List.mem_map.mp hv with ⟨r, hr, hre⟩
  have hrs : r ∈ samplesOf ext n strain stest := by
    unfold samplesOf
    exact List.mem_append_left _ hr
  rw [← hre] at hx
  exact minmaxTransformRow_mem_bounds _ _ _ hrs hx

end WineTutorial

namespace WineTutorial

/-! ### Mean and variance of standardized columns -/

theorem variance_nil : variance [] = 0 := by
  simp [variance, mean]

theorem sum_map_sub_div (l : List ℚ) (m c : ℚ) :
    (l.map (fun x => (x - m) / c)).sum = (l.sum - l.length * m) / c := by
  induction l with
  | nil => simp
  | cons a as ih =>
    simp only [List.map_cons, List.sum_cons, ih, List.length_cons]
    rw [div_add_div_same]
    congr 1
    push_cast
    ring

theorem sum_map_div (l : List ℚ) (g : ℚ → ℚ) (c : ℚ) :
    (l.map (fun x => g x / c)).sum = (l.map g).sum / c := by
  induction l with
  | nil => simp
  | cons a as ih =>
    simp only [List.map_cons, List.sum_cons, ih]
    rw [div_add_div_same]

theorem mean_map_div (l : List ℚ) (g : ℚ → ℚ) (c : ℚ) :
    mean (l.map (fun x => g x / c)) = mean (l.map g) / c := by
  unfold mean
  rw [sum_map_div, List.length_map, List.length_map, div_right_comm]

/-- Centering a list at its own mean (and dividing by anything) gives mean 0. -/
theorem mean_map_center (l : List ℚ) (c : ℚ) (hl : l ≠ []) :
    mean (l.map (fun x => (x - mean l) / c)) = 0 := by
  unfold mean
  rw [sum_map_sub_div, List.length_map]
  have hlen : (l.length : ℚ) ≠ 0 := by
    have := List.length_pos.mpr hl
    exact_mod_cast Nat.pos_iff_ne_zero.mp this
  have hz : l.sum - (l.length : ℚ) * (l.sum / l.length) = 0 := by
    field_simp
  rw [hz]
  simp

/-- Dividing a centered list by a square root of its variance gives variance 1. -/
theorem variance_standardized (l : List ℚ) (c : ℚ) (hl : l ≠ [])
    (hc : c ^ 2 = variance l) (hv : variance l ≠ 0) :
    variance (l.map (fun x => (x - mean l) / c)) = 1 := by
  have hm0 : mean (l.map (fun x => (x - mean l) / c)) = 0 := mean_map_center l c hl
  unfold variance
  rw [hm0]
  simp only [sub_zero, List.map_map, Function.comp_def, div_pow]
  rw [mean_map_div]
  have hvl : mean (l.map (fun x => (x - mean l) ^ 2)) = variance l := rfl
  rw [hvl, ← hc] at *
  rw [div_self hv]

/-- Column `j` of a standardized array is the standardized column `j`,
provided every row has an entry at position `j`. -/
theorem col_map_std (X : List Row) (mu sigma : Row) (j : ℕ)
    (hrow : ∀ r ∈ X, j < r.length) :
    col (X.map (stdTransformRow mu sigma)) j
      = (col X j).map (fun x => (x - mu.getD j 0) / sigma.getD j 0) := by
  unfold col
  rw [List.map_map, List.map_map]
  apply List.map_congr_left
  intro r hr
  simp only [Function.comp]
  unfold stdTransformRow
  rw [getD_range_map, if_pos (hrow r hr)]

end WineTutorial

namespace WineTutorial

theorem evalTrainW : wineSampleTrain0 extId 1 dataW = [[1], [2], [3], [4], [5], [6]] := rfl

theorem evalTestW : wineSampleTest0 extId 1 dataW = [[0]] := rfl

theorem evalLabelW : wineLabelTrain extId 1 dataW targetW = [0, 0, 1, 1, 2, 2] := rfl

theorem evalSamplesW :
    samplesOf extId 1 [[1], [2], [3], [4], [5], [6]] [[0]]
      = [[1], [2], [3], [4], [5], [6], [0]] := by
  norm_num [samplesOf, pcaTrainOf, pcaTestOf, stdTrainOf, stdTestOf,
    stdTransformRow, stdParamsOf, pcaOf, extId, List.range_succ, List.range_zero]

theorem evalMinW : colMin [[1], [2], [3], [4], [5], [6], [0]] 0 = 0 := by
  norm_num [colMin, col, listMin]

theorem evalMaxW : colMax [[1], [2], [3], [4], [5], [6], [0]] 0 = 6 := by
  norm_num [colMax, col, listMax]

theorem evalFinalOfW :
    finalTrainOf extId 1 [[1], [2], [3], [4], [5], [6]] [[0]]
      = [[-2/3], [-1/3], [0], [1/3], [2/3], [1]] := by
  rw [finalTrainOf, evalSamplesW]
  norm_num [pcaTrainOf, stdTrainOf, stdTransformRow, stdParamsOf, pcaOf, extId,
    minmaxTransformRow, List.range_succ, List.range_zero, evalMinW, evalMaxW, mmApply, mmScale]

theorem evalFinalTestOfW :
    finalTestOf extId 1 [[1], [2], [3], [4], [5], [6]] [[0]] = [[-1]] := by
  rw [finalTestOf, evalSamplesW]
  norm_num [pcaTestOf, stdTestOf, stdTransformRow, stdParamsOf, pcaOf, extId,
    minmaxTransformRow, List.range_succ, List.range_zero, evalMinW, evalMaxW, mmApply, mmScale]

end WineTutorial

namespace WineTutorial

theorem evalFinalTrainW :
    wineFinalTrain extId 1 1 dataW = [[-2/3], [-1/3], [0], [1/3], [2/3], [1]] := by
  rw [wineFinalTrain, evalTrainW, evalTestW, evalFinalOfW]

theorem evalFinalTestW : wineFinalTest extId 1 1 dataW = [[-1]] := by
  rw [wineFinalTest, evalTrainW, evalTestW, evalFinalTestOfW]

theorem evalTrainingInputW :
    wineTrainingInput extId 1 1 1 dataW targetW
      = [("A", [[-2/3]]), ("B", [[0]]), ("C", [[2/3]])] := by
  rw [wineTrainingInput, evalTrainW, evalTestW, evalLabelW, trainingInputOf_eq,
    evalFinalOfW]
  simp [rowsWithLabel]

theorem evalTestInputW :
    wineTestInput extId 1 1 1 dataW targetW
      = [("A", [[-1/3]]), ("B", [[1/3]]), ("C", [[1]])] := by
  rw [wineTestInput, evalTrainW, evalTestW, evalLabelW, testInputOf_eq,
    evalFinalOfW]
  simp [rowsWithLabel]

theorem evalStdTrainW :
    wineStdTrain extId 1 dataW = [[1], [2], [3], [4], [5], [6]] := by
  rw [wineStdTrain, evalTrainW]
  norm_num [stdTrainOf, stdTransformRow, stdParamsOf, extId,
    List.range_succ, List.range_zero]

theorem evalTrainStd : wineSampleTrain0 extStd 1 dataStd = [[0], [2]] := rfl

theorem evalColStd : col [[0], [2]] 0 = [0, 2] := rfl

theorem evalVarStd : variance (col (wineSampleTrain0 extStd 1 dataStd) 0) = 1 := by
  rw [evalTrainStd, evalColStd]
  norm_num [variance, mean]

theorem evalMeanColStd : mean (col (wineSampleTrain0 extStd 1 dataStd) 0) = 1 := by
  rw [evalTrainStd, evalColStd]
  norm_num [mean]

end WineTutorial

namespace WineTutorial

/-- Sizes, dimensions and disjointness of the two partition dictionaries,
given per-class availability, the PCA output dimensionality, and distinct
transformed training rows. -/
theorem partition_sizes_of (ext : WineExternals) (t s n : ℕ)
    (strain stest : List Row) (ltrain : List ℕ)
    (hpca : ∀ r ∈ stdTrainOf ext strain, (pcaOf ext n strain r).length = n)
    (hcount : ∀ k, k < 3 → t + s ≤ ltrain.count k)
    (hnd : (finalTrainOf ext n strain stest).Nodup)
    (hlen : (finalTrainOf ext n strain stest).length = ltrain.length) :
    (∀ p ∈ trainingInputOf ext t s n strain stest ltrain, p.2.length = t) ∧
    (∀ p ∈ testInputOf ext t s n strain stest ltrain, p.2.length = s) ∧
    ((trainingInputOf ext t s n strain stest ltrain).map (fun p => p.2.length)).sum
      = 3 * t ∧
    ((testInputOf ext t s n strain stest ltrain).map (fun p => p.2.length)).sum
      = 3 * s ∧
    (∀ p ∈ trainingInputOf ext t s n strain stest ltrain, ∀ v ∈ p.2, v.length = n) ∧
    (∀ p ∈ testInputOf ext t s n strain stest ltrain, ∀ v ∈ p.2, v.length = n) ∧
    (∀ p ∈ trainingInputOf ext t s n strain stest ltrain,
     ∀ q ∈ testInputOf ext t s n strain stest ltrain,
     ∀ v, v ∈ p.2 → v ∈ q.2 → False) := by
  have hmask : ∀ k,
      (rowsWithLabel (finalTrainOf ext n strain stest) ltrain k).length
        = ltrain.count k :=
    fun k => rowsWithLabel_length _ _ _ hlen
  have htake : ∀ k, k < 3 →
      ((rowsWithLabel (finalTrainOf ext n strain stest) ltrain k).take t).length = t := by
    intro k hk
    rw [List.length_take, hmask k]
    have := hcount k hk
    omega
  have hdrop : ∀ k, k < 3 →
      (((rowsWithLabel (finalTrainOf ext n strain stest) ltrain k).drop t).take s).length
        = s := by
    intro k hk
    rw [List.length_take, List.length_drop, hmask k]
    have := hcount k hk
    omega
  refine ⟨?_, ?_, ?_, ?_, ?_, ?_,
    partitions_no_overlap ext t s n strain stest ltrain hnd⟩
  · intro p hp
    rcases mem_trainingInputOf ext t s n strain stest ltrain p hp with ⟨k, hk, h2⟩
    rw [h2]
    exact htake k hk
  · intro p hp
    rcases mem_testInputOf ext t s n strain stest ltrain p hp with ⟨k, hk, h2⟩
    rw [h2]
    exact hdrop k hk
  · rw [trainingInputOf_eq]
    simp only [List.map_cons, List.map_nil, List.sum_cons, List.sum_nil]
    rw [htake 0 (by norm_num), htake 1 (by norm_num), htake 2 (by norm_num)]
    ring
  · rw [testInputOf_eq]
    simp only [List.map_cons, List.map_nil, List.sum_cons, List.sum_nil]
    rw [hdrop 0 (by norm_num), hdrop 1 (by norm_num), hdrop 2 (by norm_num)]
    ring
  · intro p hp v hv
    exact finalTrainOf_row_length ext n strain stest v hpca
      (trainingInput_vec_mem_finalTrain ext t s n strain stest ltrain p v hp hv)
  · intro p hp v hv
    exact finalTrainOf_row_length ext n strain stest v hpca
      (testInput_vec_mem_finalTrain ext t s n strain stest ltrain p v hp hv)

end WineTutorial

namespace WineTutorial

/-- C3: after the min-max rescaling step of `Wine`, for every valid call,
every feature value of every vector in both the training and testing
partitions lies within the closed interval `[-1, 1]`. -/
theorem claim_C3 (ext : WineExternals) (t s n : ℕ) (data : List Row)
    (target : List ℕ) (p : String × List Row) (v : Row) (x : ℚ)
    (hp : p ∈ wineTrainingInput ext t s n data target ∨
          p ∈ wineTestInput ext t s n data target)
    (hv : v ∈ p.2) (hx : x ∈ v) : -1 ≤ x ∧ x ≤ 1 := by
  have hvF : v ∈ finalTrainOf ext n (wineSampleTrain0 ext s data)
      (wineSampleTest0 ext s data) := by
    rcases hp with h | h
    · exact trainingInput_vec_mem_finalTrain ext t s n _ _ _ p v h hv
    · exact testInput_vec_mem_finalTrain ext t s n _ _ _ p v h hv
  exact finalTrainOf_mem_bounds ext n _ _ v x hvF hx

/-- Witness for C3 at a concrete call: the vector `[-2/3]` of class `A` of
the training partition has its value inside `[-1, 1]`. -/
theorem claim_C3_witness :
    (("A", [[(-2:ℚ)/3]]) ∈ wineTrainingInput extId 1 1 1 dataW targetW ∨
     ("A", [[(-2:ℚ)/3]]) ∈ wineTestInput extId 1 1 1 dataW targetW) ∧
    [(-2:ℚ)/3] ∈ [[(-2:ℚ)/3]] ∧ (-2:ℚ)/3 ∈ [(-2:ℚ)/3] ∧
    (-1 ≤ (-2:ℚ)/3 ∧ (-2:ℚ)/3 ≤ 1) := by
  have hp : ("A", [[(-2:ℚ)/3]]) ∈ wineTrainingInput extId 1 1 1 dataW targetW := by
    rw [evalTrainingInputW]
    simp
  refine ⟨Or.inl hp, by simp, by simp, ?_⟩
  exact claim_C3 extId 1 1 1 dataW targetW ("A", [[(-2:ℚ)/3]]) [(-2:ℚ)/3] ((-2:ℚ)/3)
    (Or.inl hp) (by simp) (by simp)

/-- C1 (counterexample): at a concrete call of `Wine` the vector `[-1/3]` of
the testing partition is not drawn from the held-out test split produced by
the initial train/test split (whose transformed rows are `[[-1]]`): the claim
that every testing-partition vector comes from the held-out test split is
false on the code. -/
theorem claim_C1_counterexample :
    ¬ (∀ p ∈ wineTestInput extId 1 1 1 dataW targetW, ∀ v ∈ p.2,
        v ∈ wineFinalTest extId 1 1 dataW) := by
  intro h
  have hp : ("A", [[(-1:ℚ)/3]]) ∈ wineTestInput extId 1 1 1 dataW targetW := by
    rw [evalTestInputW]
    simp
  have hv := h _ hp [(-1:ℚ)/3] (by simp)
  rw [evalFinalTestW] at hv
  norm_num at hv

/-- C1 (amended): every training-partition vector and every testing-partition
vector of `Wine` comes from the transformed training split (the returned
`sample_train`) — the testing partition is not drawn from the held-out test
split — and, when the transformed training rows are distinct, no vector
appears in both partitions. -/
theorem claim_C1_amended (ext : WineExternals) (t s n : ℕ) (data : List Row)
    (target : List ℕ) :
    (∀ p ∈ wineTrainingInput ext t s n data target, ∀ v ∈ p.2,
        v ∈ wineFinalTrain ext s n data) ∧
    (∀ p ∈ wineTestInput ext t s n data target, ∀ v ∈ p.2,
        v ∈ wineFinalTrain ext s n data) ∧
    ((wineFinalTrain ext s n data).Nodup →
      ∀ p ∈ wineTrainingInput ext t s n data target,
      ∀ q ∈ wineTestInput ext t s n data target,
      ∀ v, v ∈ p.2 → v ∈ q.2 → False) :=
  ⟨fun p hp v hv => trainingInput_vec_mem_finalTrain ext t s n _ _ _ p v hp hv,
   fun p hp v hv => testInput_vec_mem_finalTrain ext t s n _ _ _ p v hp hv,
   fun hnd => partitions_no_overlap ext t s n _ _ _ hnd⟩

/-- Witness for the amended C1 at a concrete call: both partitions' vectors
are rows of the returned transformed training split, whose rows are distinct,
and the concrete training vector `[-2/3]` does not reappear in the testing
partition entry. -/
theorem claim_C1_witness :
    ("A", [[(-2:ℚ)/3]]) ∈ wineTrainingInput extId 1 1 1 dataW targetW ∧
    ("A", [[(-1:ℚ)/3]]) ∈ wineTestInput extId 1 1 1 dataW targetW ∧
    [(-2:ℚ)/3] ∈ wineFinalTrain extId 1 1 dataW ∧
    [(-1:ℚ)/3] ∈ wineFinalTrain extId 1 1 dataW ∧
    (wineFinalTrain extId 1 1 dataW).Nodup ∧
    ¬ [(-2:ℚ)/3] ∈ [[(-1:ℚ)/3]] := by
  have hp : ("A", [[(-2:ℚ)/3]]) ∈ wineTrainingInput extId 1 1 1 dataW targetW := by
    rw [evalTrainingInputW]
    simp
  have hq : ("A", [[(-1:ℚ)/3]]) ∈ wineTestInput extId 1 1 1 dataW targetW := by
    rw [evalTestInputW]
    simp
  have hnd : (wineFinalTrain extId 1 1 dataW).Nodup := by
    rw [evalFinalTrainW]
    norm_num
  refine ⟨hp, hq, ?_, ?_, hnd, ?_⟩
  · exact (claim_C1_amended extId 1 1 1 dataW targetW).1 _ hp _ (by simp)
  · exact (claim_C1_amended extId 1 1 1 dataW targetW).2.1 _ hq _ (by simp)
  · intro hmem
    exact (claim_C1_amended extId 1 1 1 dataW targetW).2.2 hnd _ hp _ hq
      [(-2:ℚ)/3] (by simp) hmem

/-- C9: both returned partitions are sliced exclusively from the transformed
training-split array: every vector of the returned testing partition is a row
of the returned `sample_train`; and the held-out test split influences the
returned partitions only through the fitted min-max bounds — two calls whose
fitted per-column minima and maxima agree produce identical partitions
whatever their test split. -/
theorem claim_C9 :
    (∀ (ext : WineExternals) (t s n : ℕ) (data : List Row) (target : List ℕ),
      ∀ p ∈ wineTestInput ext t s n data target, ∀ v ∈ p.2,
        v ∈ wineFinalTrain ext s n data) ∧
    (∀ (ext : WineExternals) (t s n : ℕ) (strain : List Row)
        (stest1 stest2 : List Row) (ltrain : List ℕ),
      (∀ j, colMin (samplesOf ext n strain stest1) j
              = colMin (samplesOf ext n strain stest2) j ∧
            colMax (samplesOf ext n strain stest1) j
              = colMax (samplesOf ext n strain stest2) j) →
      trainingInputOf ext t s n strain stest1 ltrain
          = trainingInputOf ext t s n strain stest2 ltrain ∧
        testInputOf ext t s n strain stest1 ltrain
          = testInputOf ext t s n strain stest2 ltrain) := by
  constructor
  · intro ext t s n data target p hp v hv
    exact testInput_vec_mem_finalTrain ext t s n _ _ _ p v hp hv
  · intro ext t s n strain stest1 stest2 ltrain hbounds
    have hF : finalTrainOf ext n strain stest1 = finalTrainOf ext n strain stest2 := by
      unfold finalTrainOf
      apply List.map_congr_left
      intro r hr
      unfold minmaxTransformRow
      apply List.map_congr_left
      intro j hj
      rw [(hbounds j).1, (hbounds j).2]
    constructor
    · unfold trainingInputOf
      rw [hF]
    · unfold testInputOf
      rw [hF]

/-- Witness for C9 at a concrete call: the testing vector `[-1/3]` is a row
of the returned `sample_train`, and with identical fitted min-max bounds the
partitions coincide. -/
theorem claim_C9_witness :
    ("A", [[(-1:ℚ)/3]]) ∈ wineTestInput extId 1 1 1 dataW targetW ∧
    [(-1:ℚ)/3] ∈ wineFinalTrain extId 1 1 dataW ∧
    (∀ j, colMin (samplesOf extId 1 [[1], [2], [3], [4], [5], [6]] [[0]]) j
            = colMin (samplesOf extId 1 [[1], [2], [3], [4], [5], [6]] [[0]]) j ∧
          colMax (samplesOf extId 1 [[1], [2], [3], [4], [5], [6]] [[0]]) j
            = colMax (samplesOf extId 1 [[1], [2], [3], [4], [5], [6]] [[0]]) j) ∧
    (trainingInputOf extId 1 1 1 [[1], [2], [3], [4], [5], [6]] [[0]] [0, 0, 1, 1, 2, 2]
        = trainingInputOf extId 1 1 1 [[1], [2], [3], [4], [5], [6]] [[0]] [0, 0, 1, 1, 2, 2] ∧
      testInputOf extId 1 1 1 [[1], [2], [3], [4], [5], [6]] [[0]] [0, 0, 1, 1, 2, 2]
        = testInputOf extId 1 1 1 [[1], [2], [3], [4], [5], [6]] [[0]] [0, 0, 1, 1, 2, 2]) := by
  have hq : ("A", [[(-1:ℚ)/3]]) ∈ wineTestInput extId 1 1 1 dataW targetW := by
    rw [evalTestInputW]
    simp
  refine ⟨hq, ?_, fun j => ⟨rfl, rfl⟩, ?_⟩
  · exact claim_C9.1 extId 1 1 1 dataW targetW _ hq _ (by simp)
  · exact claim_C9.2 extId 1 1 1 [[1], [2], [3], [4], [5], [6]] [[0]] [[0]]
      [0, 0, 1, 1, 2, 2] (fun j => ⟨rfl, rfl⟩)

end WineTutorial

namespace WineTutorial

/-- C2: for every requested per-class training size `t` and testing size `s`
within the available per-class counts, `Wine` returns a training partition
with exactly `t` vectors per class (`3*t` total over the three classes) and a
testing partition with exactly `s` vectors per class (`3*s` total), each
vector of the PCA target dimensionality `n`, and (for distinct transformed
training rows) no vector appears in both partitions.  Instantiated at
`t = 20`, `s = 10`, `n = 4` this gives 20 per class (60 total) and 10 per
class (30 total), each vector of length 4. -/
theorem claim_C2 (ext : WineExternals) (t s n : ℕ) (data : List Row)
    (target : List ℕ)
    (hpca : ∀ r ∈ wineStdTrain ext s data,
      (pcaOf ext n (wineSampleTrain0 ext s data) r).length = n)
    (hcount : ∀ k, k < 3 → t + s ≤ (wineLabelTrain ext s data target).count k)
    (hnd : (wineFinalTrain ext s n data).Nodup) :
    (∀ p ∈ wineTrainingInput ext t s n data target, p.2.length = t) ∧
    (∀ p ∈ wineTestInput ext t s n data target, p.2.length = s) ∧
    ((wineTrainingInput ext t s n data target).map (fun p => p.2.length)).sum
      = 3 * t ∧
    ((wineTestInput ext t s n data target).map (fun p => p.2.length)).sum
      = 3 * s ∧
    (∀ p ∈ wineTrainingInput ext t s n data target, ∀ v ∈ p.2, v.length = n) ∧
    (∀ p ∈ wineTestInput ext t s n data target, ∀ v ∈ p.2, v.length = n) ∧
    (∀ p ∈ wineTrainingInput ext t s n data target,
     ∀ q ∈ wineTestInput ext t s n data target,
     ∀ v, v ∈ p.2 → v ∈ q.2 → False) := by
  have hlen : (finalTrainOf ext n (wineSampleTrain0 ext s data)
      (wineSampleTest0 ext s data)).length
        = (wineLabelTrain ext s data target).length := by
    rw [finalTrainOf_length, wineSampleTrain0, wineLabelTrain,
      select_length, select_length]
  exact partition_sizes_of ext t s n (wineSampleTrain0 ext s data)
    (wineSampleTest0 ext s data) (wineLabelTrain ext s data target)
    hpca hcount hnd hlen

/-- Witness for C2 at a concrete call with `t = s = 1`, `n = 1` and two
available rows per class in the training split. -/
theorem claim_C2_witness :
    (∀ r ∈ wineStdTrain extId 1 dataW,
      (pcaOf extId 1 (wineSampleTrain0 extId 1 dataW) r).length = 1) ∧
    (∀ k, k < 3 → 1 + 1 ≤ (wineLabelTrain extId 1 dataW targetW).count k) ∧
    (wineFinalTrain extId 1 1 dataW).Nodup ∧
    (∀ p ∈ wineTrainingInput extId 1 1 1 dataW targetW, p.2.length = 1) ∧
    ((wineTrainingInput extId 1 1 1 dataW targetW).map (fun p => p.2.length)).sum
      = 3 * 1 := by
  have hpca : ∀ r ∈ wineStdTrain extId 1 dataW,
      (pcaOf extId 1 (wineSampleTrain0 extId 1 dataW) r).length = 1 := by
    intro r hr
    rw [evalStdTrainW] at hr
    simp only [pcaOf, extId]
    fin_cases hr <;> rfl
  have hcount : ∀ k, k < 3 → 1 + 1 ≤ (wineLabelTrain extId 1 dataW targetW).count k := by
    rw [evalLabelW]
    decide
  have hnd : (wineFinalTrain extId 1 1 dataW).Nodup := by
    rw [evalFinalTrainW]
    norm_num
  have hmain := claim_C2 extId 1 1 1 dataW targetW hpca hcount hnd
  exact ⟨hpca, hcount, hnd, hmain.1, hmain.2.2.1⟩

/-- C6: if a call to `Wine` requests more examples per class than exist for
that class after the train/test split, the returned training partition for
that class is silently smaller than requested: its length is the available
per-class count, which is less than `t`; no error is raised (the embedded
`Wine` is a total function). -/
theorem claim_C6 (ext : WineExternals) (t s n : ℕ) (data : List Row)
    (target : List ℕ) (k : ℕ) (hk : k < 3)
    (hlt : (wineLabelTrain ext s data target).count k < t) :
    ((wineTrainingInput ext t s n data target).getD k ("", [])).2.length
      = (wineLabelTrain ext s data target).count k ∧
    ((wineTrainingInput ext t s n data target).getD k ("", [])).2.length < t := by
  have hlen : (finalTrainOf ext n (wineSampleTrain0 ext s data)
      (wineSampleTest0 ext s data)).length
        = (wineLabelTrain ext s data target).length := by
    rw [finalTrainOf_length, wineSampleTrain0, wineLabelTrain,
      select_length, select_length]
  have hmask := rowsWithLabel_length
    (finalTrainOf ext n (wineSampleTrain0 ext s data) (wineSampleTest0 ext s data))
    (wineLabelTrain ext s data target) k hlen
  have hentry : ((wineTrainingInput ext t s n data target).getD k ("", [])).2
      = (rowsWithLabel
          (finalTrainOf ext n (wineSampleTrain0 ext s data) (wineSampleTest0 ext s data))
          (wineLabelTrain ext s data target) k).take t := by
    rw [show wineTrainingInput ext t s n data target
        = trainingInputOf ext t s n (wineSampleTrain0 ext s data)
            (wineSampleTest0 ext s data) (wineLabelTrain ext s data target) from rfl,
      trainingInputOf_eq]
    interval_cases k <;> rfl
  rw [hentry, List.length_take, hmask]
  omega

/-- Witness for C6 at a concrete call requesting `t = 5` while only 2 rows of
class `0` are available: the partition entry has 2 < 5 vectors. -/
theorem claim_C6_witness :
    (0 < 3 ∧ (wineLabelTrain extId 1 dataW targetW).count 0 < 5) ∧
    ((wineTrainingInput extId 5 1 1 dataW targetW).getD 0 ("", [])).2.length
      = (wineLabelTrain extId 1 dataW targetW).count 0 ∧
    ((wineTrainingInput extId 5 1 1 dataW targetW).getD 0 ("", [])).2.length < 5 := by
  have hlt : (wineLabelTrain extId 1 dataW targetW).count 0 < 5 := by
    rw [evalLabelW]
    decide
  exact ⟨⟨by norm_num, hlt⟩, claim_C6 extId 5 1 1 dataW targetW 0 (by norm_num) hlt⟩

/-- C4: two runs of the Example A dataset preparation with the same fixed
random seed and the same parameters (training size, test size, target
dimensionality) on the same base data, under the same deterministic external
components, produce identical partitioned datasets. -/
theorem claim_C4 (ext : WineExternals) (g1 g2 t1 t2 s1 s2 n1 n2 : ℕ)
    (data : List Row) (target : List ℕ)
    (hg : g1 = g2) (ht : t1 = t2) (hs : s1 = s2) (hn : n1 = n2) :
    prepareWineDataset ext g1 t1 s1 n1 data target
      = prepareWineDataset ext g2 t2 s2 n2 data target := by
  subst hg
  subst ht
  subst hs
  subst hn
  rfl

/-- Witness for C4 at the notebook's parameters (seed 10598, sizes 20/10,
dimensionality 4). -/
theorem claim_C4_witness :
    (10598 = 10598 ∧ 20 = 20 ∧ 10 = 10 ∧ 4 = 4) ∧
    prepareWineDataset extId 10598 20 10 4 dataW targetW
      = prepareWineDataset extId 10598 20 10 4 dataW targetW :=
  ⟨⟨rfl, rfl, rfl, rfl⟩,
   claim_C4 extId 10598 10598 20 20 10 10 4 4 dataW targetW rfl rfl rfl rfl⟩

/-- C10: the partitioned dataset returned by `Wine` depends only on its
arguments and not on the process-wide numpy seed: the run with global seed
`g1` equals the run with global seed `g2` for all `g1, g2`, and the internal
split permutation is drawn with the hard-coded `random_state = 7`. -/
theorem claim_C10 (ext : WineExternals) (g1 g2 t s n : ℕ) (data : List Row)
    (target : List ℕ) :
    prepareWineDataset ext g1 t s n data target
      = prepareWineDataset ext g2 t s n data target ∧
    winePerm ext data = ext.permutation 7 data.length :=
  ⟨rfl, rfl⟩

end WineTutorial

namespace WineTutorial

/-- C5: the standardization transform in `Wine` is fit on the training subset
only and applied unchanged to both subsets: whenever the fitted parameters
satisfy the `StandardScaler` fit equations on the training split (exactly, so
"within numerical tolerance" holds exactly over ℚ) and feature `j` has
nonzero variance, the transformed training split has mean 0 and variance 1 in
column `j`; and the test split is transformed with those same train-fitted
parameters — it is never re-fit on test data. -/
theorem claim_C5 (ext : WineExternals) (s d j : ℕ) (data : List Row)
    (hfit : IsStdFit (wineSampleTrain0 ext s data) d
      (wineStdParams ext s data).1 (wineStdParams ext s data).2)
    (hrows : ∀ r ∈ wineSampleTrain0 ext s data, r.length = d)
    (hj : j < d)
    (hvar : variance (col (wineSampleTrain0 ext s data) j) ≠ 0) :
    mean (col (wineStdTrain ext s data) j) = 0 ∧
    variance (col (wineStdTrain ext s data) j) = 1 ∧
    wineStdTest ext s data
      = (wineSampleTest0 ext s data).map
          (stdTransformRow (wineStdParams ext s data).1 (wineStdParams ext s data).2) := by
  obtain ⟨hmu_len, hsig_len, hj_props⟩ := hfit
  obtain ⟨hmu, hsig_nonneg, hsig0, hsig⟩ := hj_props j hj
  have hlne : col (wineSampleTrain0 ext s data) j ≠ [] := by
    intro h
    apply hvar
    rw [h]
    exact variance_nil
  have hrow : ∀ r ∈ wineSampleTrain0 ext s data, j < r.length := by
    intro r hr
    rw [hrows r hr]
    exact hj
  have hcol : col (wineStdTrain ext s data) j
      = (col (wineSampleTrain0 ext s data) j).map
          (fun x => (x - mean (col (wineSampleTrain0 ext s data) j))
            / (wineStdParams ext s data).2.getD j 0) := by
    have h1 := col_map_std (wineSampleTrain0 ext s data)
      (wineStdParams ext s data).1 (wineStdParams ext s data).2 j hrow
    rw [hmu] at h1
    exact h1
  refine ⟨?_, ?_, rfl⟩
  · rw [hcol]
    exact mean_map_center _ _ hlne
  · rw [hcol]
    exact variance_standardized _ _ hlne (hsig hvar) hvar

/-- Witness for C5 at a concrete call whose training split is `[[0], [2]]`
with true fit `(mean_, scale_) = ([1], [1])`: the standardized column has
mean 0 and variance 1, and the test split is transformed with the same
parameters. -/
theorem claim_C5_witness :
    IsStdFit (wineSampleTrain0 extStd 1 dataStd) 1
      (wineStdParams extStd 1 dataStd).1 (wineStdParams extStd 1 dataStd).2 ∧
    (∀ r ∈ wineSampleTrain0 extStd 1 dataStd, r.length = 1) ∧
    0 < 1 ∧
    variance (col (wineSampleTrain0 extStd 1 dataStd) 0) ≠ 0 ∧
    (mean (col (wineStdTrain extStd 1 dataStd) 0) = 0 ∧
     variance (col (wineStdTrain extStd 1 dataStd) 0) = 1 ∧
     wineStdTest extStd 1 dataStd
       = (wineSampleTest0 extStd 1 dataStd).map
           (stdTransformRow (wineStdParams extStd 1 dataStd).1
             (wineStdParams extStd 1 dataStd).2)) := by
  have hfit : IsStdFit (wineSampleTrain0 extStd 1 dataStd) 1
      (wineStdParams extStd 1 dataStd).1 (wineStdParams extStd 1 dataStd).2 := by
    refine ⟨rfl, rfl, ?_⟩
    intro j hj
    interval_cases j
    refine ⟨?_, by norm_num [wineStdParams, stdParamsOf, extStd], ?_, ?_⟩
    · rw [evalMeanColStd]
      rfl
    · rw [evalVarStd]
      intro h
      norm_num at h
    · rw [evalVarStd]
      intro h
      norm_num [wineStdParams, stdParamsOf, extStd]
  have hrows : ∀ r ∈ wineSampleTrain0 extStd 1 dataStd, r.length = 1 := by
    intro r hr
    rw [evalTrainStd] at hr
    fin_cases hr <;> rfl
  have hvar : variance (col (wineSampleTrain0 extStd 1 dataStd) 0) ≠ 0 := by
    rw [evalVarStd]
    norm_num
  exact ⟨hfit, hrows, by norm_num,
    hvar, claim_C5 extStd 1 1 0 dataStd hfit hrows (by norm_num) hvar⟩

end WineTutorial

namespace FeatureMapExperiment

/-- C8: Example A invokes the trainable quantum classification algorithm
exactly twice — once with the raw-vector encoding (`RawFeatureVector`) and
once with the kernel-expansion encoding (`SecondOrderExpansion`) — and each
invocation returns a result record containing a testing-accuracy scalar,
which is the value printed for that run. -/
theorem claim_C8 (runAlg : VQCConfig → ClassificationInput → VQCResult)
    (input : ClassificationInput) :
    (experimentTrace runAlg input).length = 2 ∧
    (experimentTrace runAlg input).map (fun e => e.config.feature_map_name)
      = [some "RawFeatureVector", some "SecondOrderExpansion"] ∧
    (experimentTrace runAlg input).map (fun e => e.printed_value)
      = (experimentTrace runAlg input).map (fun e => e.result.testing_accuracy) :=
  ⟨rfl, rfl, rfl⟩

end FeatureMapExperiment

namespace ChemistryExample

/-- C7: invoking the Example B chemistry solver with the documented
configuration dictionary, the documented serialized H2 molecular data file
and the statevector-simulator backend returns a result record whose `energy`
field (a finite rational here, modelling the recorded float exactly) is
within `1e-3` of `-1.136`. -/
theorem claim_C7 :
    |(qiskitChemistryRun qiskitChemistryDict "statevector_simulator").energy
        - (-1136 / 1000)| ≤ 1 / 1000 := by
  norm_num [qiskitChemistryRun, abs_le]

end ChemistryExample
